import Mathlib

/-!
Shallow embedding of the regular-polygon plotting program (`src/main.rs`).

The geometry generator (`generate_polygon_points`) and the raster pipeline
(`create_image`, `draw_text`, the marker loop) are translated here.  `f64`
values are modelled as real numbers (the spec describes the quantities as
reals); the `f32` glyph-coverage values are modelled as rationals; machine
integers (`u32`, `u16`, `u8`) are modelled as `Nat` with explicit `% 2 ^ w`
at the operations where overflow can occur, and the saturating float-to-int
casts of Rust are modelled explicitly.  Operations that can panic in Rust
(slice indexing, `%` by zero, `put_pixel` out of bounds) are modelled in the
`Except String` monad, so that panic-freedom is a provable statement.

The external collaborators (imageproc's circle/line rasterizers, rusttype's
glyph layout, and number formatting) are parameters of `create_image`: the
rasterizers are modelled as arbitrary functions producing the coordinate
lists they touch (written with per-pixel clipping, which is imageproc's
documented behaviour), and the font is an arbitrary layout function, as the
spec treats the glyph source as an opaque loaded resource.
-/

/-- Truncation toward zero, the rounding mode of Rust's `as` float-to-integer
casts (`f64 as u32`, `f32 as u8`, `f64 as i32`). -/
noncomputable def rtrunc (x : ℝ) : ℤ := if 0 ≤ x then ⌊x⌋ else ⌈x⌉

/-- Rust's `%` on `f64`: remainder with the sign of the dividend,
`x - y * trunc (x / y)`. -/
noncomputable def rustRem (x y : ℝ) : ℝ := x - y * rtrunc (x / y)

/-- The angle normalization of `generate_polygon_points` (src/main.rs:30-33):
`theta_deg = theta.to_degrees() % 360.0`, wrapped by `+ 360.0` if negative. -/
noncomputable def normDeg (x : ℝ) : ℝ :=
  if rustRem x 360 < 0 then rustRem x 360 + 360 else rustRem x 360

/-- `f64::to_radians`: `self * (PI / 180.0)`. -/
noncomputable def toRadians (x : ℝ) : ℝ := x * (Real.pi / 180)

/-- `f64::to_degrees`: `self * (180.0 / PI)`. -/
noncomputable def toDegrees (x : ℝ) : ℝ := x * (180 / Real.pi)

/-- `generate_polygon_points` (src/main.rs:14-39): for each `i < n_sides`,
vertex `i` is `(radius * cos theta, radius * sin theta, theta_deg)` with
`radius = diameter / 2`,
`theta = 2 * PI * i / n_sides + offset_deg.to_radians()`, and
`theta_deg` the normalized degree angle. -/
noncomputable def generate_polygon_points (n_sides : ℕ) (diameter offset_deg : ℝ) :
    List (ℝ × ℝ × ℝ) :=
  (List.range n_sides).map fun (i : ℕ) =>
    (diameter / 2 * Real.cos (2 * Real.pi * (i : ℝ) / (n_sides : ℝ) + toRadians offset_deg),
     diameter / 2 * Real.sin (2 * Real.pi * (i : ℝ) / (n_sides : ℝ) + toRadians offset_deg),
     normDeg (toDegrees (2 * Real.pi * (i : ℝ) / (n_sides : ℝ) + toRadians offset_deg)))

/-- `diameter as u32` (src/main.rs:212): Rust float-to-int casts truncate
toward zero and saturate at the bounds of the target type. -/
noncomputable def f64_as_u32 (x : ℝ) : ℕ := min (Int.toNat (rtrunc x)) (2 ^ 32 - 1)

/-- The canvas side (src/main.rs:212): `(diameter as u32 + 200).max(1000)`,
with the `u32` addition wrapping modulo `2 ^ 32`. -/
noncomputable def needed_size (diameter : ℝ) : ℕ :=
  max ((f64_as_u32 diameter + 200) % 2 ^ 32) 1000

/-! ### Basic facts about the degree normalization -/

lemma normDeg_eq (x : ℝ) : normDeg x = x - 360 * ⌊x / 360⌋ := by
  have hx : (360 : ℝ) * (x / 360) = x := by ring
  have hfl : (⌊x / 360⌋ : ℝ) ≤ x / 360 := Int.floor_le _
  have hfl' : x / 360 < ⌊x / 360⌋ + 1 := Int.lt_floor_add_one _
  unfold normDeg rustRem rtrunc
  by_cases h : 0 ≤ x / 360
  · rw [if_pos h]
    have h1 : ¬ (x - 360 * (⌊x / 360⌋ : ℝ) < 0) := by push_neg; nlinarith
    rw [if_neg h1]
  · rw [if_neg h]
    have hcf : ⌊x / 360⌋ ≤ ⌈x / 360⌉ := Int.floor_le_ceil _
    have hcf' : ⌈x / 360⌉ ≤ ⌊x / 360⌋ + 1 := Int.ceil_le_floor_add_one _
    rcases eq_or_lt_of_le hcf with heq | hlt
    · rw [← heq]
      have hz : x / 360 ≤ (⌊x / 360⌋ : ℝ) := by
        have := Int.le_ceil (x / 360)
        rwa [← heq] at this
      have hzz : (⌊x / 360⌋ : ℝ) = x / 360 := le_antisymm hfl hz
      have h1 : ¬ (x - 360 * (⌊x / 360⌋ : ℝ) < 0) := by push_neg; nlinarith
      rw [if_neg h1]
    · have hceq : ⌈x / 360⌉ = ⌊x / 360⌋ + 1 := le_antisymm hcf' hlt
      rw [hceq]
      have h1 : x - 360 * ((⌊x / 360⌋ + 1 : ℤ) : ℝ) < 0 := by push_cast; nlinarith
      rw [if_pos h1]
      push_cast
      ring

lemma normDeg_nonneg (x : ℝ) : 0 ≤ normDeg x := by
  rw [normDeg_eq]
  have : (⌊x / 360⌋ : ℝ) ≤ x / 360 := Int.floor_le _
  nlinarith

lemma normDeg_lt_360 (x : ℝ) : normDeg x < 360 := by
  rw [normDeg_eq]
  have : x / 360 < ⌊x / 360⌋ + 1 := Int.lt_floor_add_one _
  nlinarith

lemma normDeg_add_360 (x : ℝ) : normDeg (x + 360) = normDeg x := by
  rw [normDeg_eq, normDeg_eq]
  have h : (x + 360) / 360 = x / 360 + 1 := by ring
  rw [h, Int.floor_add_one]
  push_cast
  ring

lemma toDegrees_toRadians (x : ℝ) : toDegrees (toRadians x) = x := by
  unfold toDegrees toRadians
  field_simp

lemma toDegrees_add (x y : ℝ) : toDegrees (x + y) = toDegrees x + toDegrees y := by
  unfold toDegrees
  ring

lemma generate_length (n : ℕ) (d off : ℝ) :
    (generate_polygon_points n d off).length = n := by
  unfold generate_polygon_points
  rw [List.length_map, List.length_range]

lemma generate_getD (n : ℕ) (d off : ℝ) (i : ℕ) (h : i < n) :
    (generate_polygon_points n d off).getD i (0, 0, 0) =
      (d / 2 * Real.cos (2 * Real.pi * (i : ℝ) / (n : ℝ) + toRadians off),
       d / 2 * Real.sin (2 * Real.pi * (i : ℝ) / (n : ℝ) + toRadians off),
       normDeg (toDegrees (2 * Real.pi * (i : ℝ) / (n : ℝ) + toRadians off))) := by
  unfold generate_polygon_points
  rw [List.getD_eq_getElem?_getD, List.getElem?_map, List.getElem?_range h]
  rfl

/-! ### Claim theorems about the geometry generator -/

/-- C1: for every side count `n`, diameter `d ≥ 0` and rotation offset,
`generate_polygon_points n d off` has exactly `n` vertices in index order;
vertex `i` is built from the base angle `2π·i/n` plus the offset converted
to radians, with `x = (d/2)·cos θ` and `y = (d/2)·sin θ`, and lies at
Euclidean distance `d/2` from the origin. -/
theorem generate_polygon_points_spec (n : ℕ) (d off : ℝ) (hd : 0 ≤ d) :
    (generate_polygon_points n d off).length = n ∧
    ∀ i, i < n →
      (generate_polygon_points n d off).getD i (0, 0, 0) =
        (d / 2 * Real.cos (2 * Real.pi * (i : ℝ) / (n : ℝ) + toRadians off),
         d / 2 * Real.sin (2 * Real.pi * (i : ℝ) / (n : ℝ) + toRadians off),
         normDeg (toDegrees (2 * Real.pi * (i : ℝ) / (n : ℝ) + toRadians off))) ∧
      Real.sqrt
          (((generate_polygon_points n d off).getD i (0, 0, 0)).1 ^ 2 +
            ((generate_polygon_points n d off).getD i (0, 0, 0)).2.1 ^ 2) = d / 2 := by
  refine ⟨generate_length n d off, fun i hi => ⟨generate_getD n d off i hi, ?_⟩⟩
  rw [generate_getD n d off i hi]
  have hsq : (d / 2 * Real.cos (2 * Real.pi * (i : ℝ) / (n : ℝ) + toRadians off)) ^ 2 +
      (d / 2 * Real.sin (2 * Real.pi * (i : ℝ) / (n : ℝ) + toRadians off)) ^ 2 =
      (d / 2) ^ 2 := by
    have h1 := Real.sin_sq_add_cos_sq (2 * Real.pi * (i : ℝ) / (n : ℝ) + toRadians off)
    nlinarith [h1]
  rw [hsq]
  exact Real.sqrt_sq (by linarith)

theorem generate_polygon_points_spec_witness :
    (0 : ℝ) ≤ 1 ∧
      ((generate_polygon_points 3 1 0).length = 3 ∧
        ∀ i, i < 3 →
          (generate_polygon_points 3 1 0).getD i (0, 0, 0) =
            ((1 : ℝ) / 2 * Real.cos (2 * Real.pi * (i : ℝ) / (3 : ℝ) + toRadians 0),
             (1 : ℝ) / 2 * Real.sin (2 * Real.pi * (i : ℝ) / (3 : ℝ) + toRadians 0),
             normDeg (toDegrees (2 * Real.pi * (i : ℝ) / (3 : ℝ) + toRadians 0))) ∧
          Real.sqrt
              (((generate_polygon_points 3 1 0).getD i (0, 0, 0)).1 ^ 2 +
                ((generate_polygon_points 3 1 0).getD i (0, 0, 0)).2.1 ^ 2) = (1 : ℝ) / 2) :=
  ⟨by norm_num, generate_polygon_points_spec 3 1 0 (by norm_num)⟩

/-- C2: every vertex of `generate_polygon_points` stores an angle in
`[0, 360)`: the angle field is the vertex angle in degrees reduced by the
remainder operation, with a negative remainder wrapped by adding `360`. -/
theorem generate_angle_in_range (n : ℕ) (d off : ℝ) (i : ℕ) (hi : i < n) :
    ((generate_polygon_points n d off).getD i (0, 0, 0)).2.2 =
      normDeg (toDegrees (2 * Real.pi * (i : ℝ) / (n : ℝ) + toRadians off)) ∧
    0 ≤ ((generate_polygon_points n d off).getD i (0, 0, 0)).2.2 ∧
    ((generate_polygon_points n d off).getD i (0, 0, 0)).2.2 < 360 := by
  rw [generate_getD n d off i hi]
  exact ⟨rfl, normDeg_nonneg _, normDeg_lt_360 _⟩

theorem generate_angle_in_range_witness :
    0 < 4 ∧
      (((generate_polygon_points 4 700 (-50)).getD 0 (0, 0, 0)).2.2 =
          normDeg (toDegrees (2 * Real.pi * ((0 : ℕ) : ℝ) / (4 : ℝ) + toRadians (-50))) ∧
        0 ≤ ((generate_polygon_points 4 700 (-50)).getD 0 (0, 0, 0)).2.2 ∧
        ((generate_polygon_points 4 700 (-50)).getD 0 (0, 0, 0)).2.2 < 360) :=
  ⟨by norm_num, generate_angle_in_range 4 700 (-50) 0 (by norm_num)⟩

/-- C5: for every side count, diameter and index, the stored angle for
rotation offset `370°` equals the stored angle for rotation offset `10°`. -/
theorem generate_angle_offset_370_eq_10 (n : ℕ) (d : ℝ) (i : ℕ) :
    ((generate_polygon_points n d 370).getD i (0, 0, 0)).2.2 =
      ((generate_polygon_points n d 10).getD i (0, 0, 0)).2.2 := by
  by_cases hi : i < n
  · rw [generate_getD n d 370 i hi, generate_getD n d 10 i hi]
    have h370 : toRadians (370 : ℝ) = toRadians 10 + toRadians 360 := by
      unfold toRadians; ring
    have hdeg : toDegrees (2 * Real.pi * (i : ℝ) / (n : ℝ) + toRadians 370) =
        toDegrees (2 * Real.pi * (i : ℝ) / (n : ℝ) + toRadians 10) + 360 := by
      rw [h370, ← add_assoc, toDegrees_add, toDegrees_toRadians]
    rw [hdeg, normDeg_add_360]
  · have hl : n ≤ i := Nat.le_of_not_lt hi
    rw [List.getD_eq_default, List.getD_eq_default]
    · rw [generate_length]; exact hl
    · rw [generate_length]; exact hl

/-! ### The raster model -/

/-- An RGBA pixel (`image::Rgba<u8>`); channel values are `u8` values
modelled as naturals. -/
structure Pixel where
  r : ℕ
  g : ℕ
  b : ℕ
  a : ℕ
deriving DecidableEq

/-- An RGBA image (`image::RgbaImage`): a width, a height and the pixel
contents. -/
structure Image where
  width : ℕ
  height : ℕ
  pix : ℕ → ℕ → Pixel

/-- `img.put_pixel`/`get_pixel_mut` assignment at in-range coordinates. -/
def setPixel (img : Image) (x y : ℕ) (c : Pixel) : Image :=
  { img with pix := fun u v => if u = x ∧ v = y then c else img.pix u v }

/-- The background color (src/main.rs:216). -/
def bg_color : Pixel := ⟨220, 220, 220, 255⟩

/-- The circumscribed-circle outline color (src/main.rs:227). -/
def circle_color : Pixel := ⟨0, 0, 255, 255⟩

/-- The polygon-edge color (src/main.rs:243). -/
def edge_color : Pixel := ⟨0, 0, 0, 255⟩

/-- The vertex-marker color `red` (src/main.rs:251). -/
def marker_color : Pixel := ⟨255, 0, 0, 255⟩

/-- The label text color (src/main.rs:270). -/
def label_color : Pixel := ⟨0, 0, 0, 255⟩

/-- Truncation toward zero on the rationals, the rounding of Rust's
`f32 as u8` cast. -/
def qtrunc (q : ℚ) : ℤ := if 0 ≤ q then ⌊q⌋ else ⌈q⌉

/-- `f32 as u8`: truncate toward zero, saturating at `0` and `255`. -/
def f32_as_u8 (q : ℚ) : ℕ := min (Int.toNat (qtrunc q)) 255

/-- The per-pixel alpha blend of `draw_text` (src/main.rs:65-78): with
`alpha = (gv * 255.0) as u8` and `inv_alpha = 255 - alpha`, each color
channel becomes `(src * alpha + dst * inv_alpha) / 255` computed in `u16`
(sums taken modulo `2 ^ 16`, the quotient cast back to `u8`), and the
destination alpha channel is set to `255`. -/
def composite (src : Pixel) (gv : ℚ) (dst : Pixel) : Pixel :=
  { r := (src.r * f32_as_u8 (gv * 255) + dst.r * (255 - f32_as_u8 (gv * 255))) % 2 ^ 16
          / 255 % 2 ^ 8
    g := (src.g * f32_as_u8 (gv * 255) + dst.g * (255 - f32_as_u8 (gv * 255))) % 2 ^ 16
          / 255 % 2 ^ 8
    b := (src.b * f32_as_u8 (gv * 255) + dst.b * (255 - f32_as_u8 (gv * 255))) % 2 ^ 16
          / 255 % 2 ^ 8
    a := 255 }

/-- One glyph-pixel step of `draw_text` (src/main.rs:60-79): the target
coordinate is bounds-checked individually; in range, the destination pixel
is replaced by the blend, out of range nothing happens. -/
def textPixelStep (color : Pixel) (px py : ℤ) (gv : ℚ) (img : Image) : Image :=
  if 0 ≤ px ∧ px < (img.width : ℤ) ∧ 0 ≤ py ∧ py < (img.height : ℤ) then
    setPixel img px.toNat py.toNat (composite color gv (img.pix px.toNat py.toNat))
  else img

/-- A positioned glyph as produced by rusttype's layout: an optional pixel
bounding box (offset and extent) and a coverage sampling function. -/
structure BBox where
  minx : ℤ
  miny : ℤ
  w : ℕ
  h : ℕ

/-- A glyph: `pixel_bounding_box()` and the antialiasing coverage values
handed to `glyph.draw`. -/
structure Glyph where
  bb : Option BBox
  cov : ℕ → ℕ → ℚ

/-- The glyph-local pixel coordinates `glyph.draw` visits. -/
def pixelGrid (w h : ℕ) : List (ℕ × ℕ) :=
  (List.range h).flatMap fun gy => (List.range w).map fun gx => (gx, gy)

/-- `draw_text` (src/main.rs:44-83): lay the string out into glyphs, and for
each glyph with a bounding box composite every covered pixel (individually
bounds-checked) over the image.  The layout function stands for the loaded
font resource together with rusttype's `Font::layout`. -/
def draw_text (layout : String → List Glyph) (img : Image) (text : String)
    (x y : ℤ) (color : Pixel) : Image :=
  (layout text).foldl
    (fun im g =>
      match g.bb with
      | none => im
      | some bb =>
        (pixelGrid bb.w bb.h).foldl
          (fun im2 p =>
            textPixelStep color (x + bb.minx + (p.1 : ℤ)) (y + bb.miny + (p.2 : ℤ))
              (g.cov p.1 p.2) im2)
          im)
    img

/-- Drawing a list of rasterized shape points in one color, clipping each
point to the canvas (the behaviour of imageproc's `draw_hollow_circle_mut`
and `draw_line_segment_mut`, which bounds-check every pixel they touch). -/
def draw_shape (pts : List (ℤ × ℤ)) (c : Pixel) (img : Image) : Image :=
  pts.foldl
    (fun im p =>
      if 0 ≤ p.1 ∧ p.1 < (im.width : ℤ) ∧ 0 ≤ p.2 ∧ p.2 < (im.height : ℤ) then
        setPixel im p.1.toNat p.2.toNat c
      else im)
    img

/-- `img.put_pixel xx yy c` (src/main.rs:262): panics (here: errors) when
the coordinates are out of range. -/
def putPixel (img : Image) (x y : ℤ) (c : Pixel) : Except String Image :=
  if 0 ≤ x ∧ x < (img.width : ℤ) ∧ 0 ≤ y ∧ y < (img.height : ℤ) then
    Except.ok (setPixel img x.toNat y.toNat c)
  else Except.error "put_pixel: coordinates out of bounds"

/-- The `(dy, dx)` offsets visited by the marker loops
`for dy in -r..=r { for dx in -r..=r { ... } }` with `r = 3`
(src/main.rs:256-257). -/
def markerOffsets : List (ℤ × ℤ) :=
  (List.range 7).flatMap fun (dy : ℕ) =>
    (List.range 7).map fun (dx : ℕ) => ((dy : ℤ) - 3, (dx : ℤ) - 3)

/-- The body of the marker loop (src/main.rs:258-264): inside the disc
`dx*dx + dy*dy ≤ r*r`, bounds-check the target and `put_pixel` it. -/
def markerStep (px py : ℤ) (c : Pixel) (im : Image) (q : ℤ × ℤ) : Except String Image :=
  if q.2 * q.2 + q.1 * q.1 ≤ 3 * 3 then
    if 0 ≤ px + q.2 ∧ px + q.2 < (im.width : ℤ) ∧ 0 ≤ py + q.1 ∧ py + q.1 < (im.height : ℤ)
    then putPixel im (px + q.2) (py + q.1) c
    else Except.ok im
  else Except.ok im

/-- The filled circular vertex marker (src/main.rs:253-266). -/
def drawMarker (px py : ℤ) (c : Pixel) (img : Image) : Except String Image :=
  markerOffsets.foldlM (markerStep px py c) img

/-- `f64::round`: round half away from zero. -/
noncomputable def rround (x : ℝ) : ℤ := if 0 ≤ x then ⌊x + 1 / 2⌋ else ⌈x - 1 / 2⌉

/-- `as i32` on an integral value: saturate into the `i32` range. -/
def as_i32 (z : ℤ) : ℤ := max (-(2 ^ 31)) (min z (2 ^ 31 - 1))

/-- Rust slice indexing `l[i]`, which panics (here: errors) out of range. -/
def safeIdx {α : Type} (l : List α) (i : ℕ) : Except String α :=
  match l.get? i with
  | some v => Except.ok v
  | none => Except.error "index out of bounds"

/-- Rust `%` on `usize`, which panics (here: errors) on a zero divisor. -/
def safeMod (a b : ℕ) : Except String ℕ :=
  if b = 0 then Except.error "attempt to calculate the remainder with a divisor of zero"
  else Except.ok (a % b)

/-- The body of the edge loop (src/main.rs:237-245): `j = (i + 1) % n_sides`,
index both screen points, and draw the connecting segment. -/
def edgeStep (lineR : ℤ × ℤ → ℤ × ℤ → List (ℤ × ℤ)) (img_points : List (ℤ × ℤ))
    (n_sides : ℕ) (im : Image) (i : ℕ) : Except String Image := do
  let j ← safeMod (i + 1) n_sides
  let pA ← safeIdx img_points i
  let pB ← safeIdx img_points j
  pure (draw_shape (lineR pA pB) edge_color im)

/-- The body of the marker-and-label loop (src/main.rs:254-271): draw the
filled red marker at screen point `i`, then the label of vertex `i`
(formatted by `fmt`, standing for `format!`) at offset `(+6, -12)`. -/
def labelStep (layout : String → List Glyph) (fmt : ℝ × ℝ × ℝ → String)
    (points : List (ℝ × ℝ × ℝ)) (im : Image) (ip : ℕ × ℤ × ℤ) : Except String Image := do
  let im2 ← drawMarker ip.2.1 ip.2.2 marker_color im
  let pt ← safeIdx points ip.1
  pure (draw_text layout im2 (fmt pt) (ip.2.1 + 6) (ip.2.2 - 12) label_color)

/-- The canvas center `cx = cy = img_width as f64 / 2.0` (src/main.rs:222-223). -/
noncomputable def canvas_center (diameter : ℝ) : ℝ := ((needed_size diameter : ℕ) : ℝ) / 2

/-- The background canvas (src/main.rs:216-217): a square of side
`needed_size diameter` filled with `bg_color`. -/
noncomputable def background_image (diameter : ℝ) : Image :=
  ⟨needed_size diameter, needed_size diameter, fun _ _ => bg_color⟩

/-- The canvas after the circumscribed-circle outline (src/main.rs:226-227):
the circle rasterizer `circleR` stands for imageproc's
`draw_hollow_circle_mut`, called at the canvas center with radius
`(diameter / 2.0).round() as i32`. -/
noncomputable def circle_image (circleR : ℤ × ℤ → ℤ → List (ℤ × ℤ)) (diameter : ℝ) : Image :=
  draw_shape
    (circleR (as_i32 (rtrunc (canvas_center diameter)), as_i32 (rtrunc (canvas_center diameter)))
      (as_i32 (rround (diameter / 2))))
    circle_color (background_image diameter)

/-- The screen positions of the vertices (src/main.rs:230-236):
`px = (cx + x).round() as i32`, `py = (cy - y).round() as i32`. -/
noncomputable def screen_points (n_sides : ℕ) (diameter offset_deg : ℝ) : List (ℤ × ℤ) :=
  (generate_polygon_points n_sides diameter offset_deg).map fun p =>
    (as_i32 (rround (canvas_center diameter + p.1)),
     as_i32 (rround (canvas_center diameter - p.2.1)))

/-- `create_image` (src/main.rs:208-274): build the background canvas of
side `needed_size diameter`, draw the circumscribed circle, the polygon
edges, and per vertex the marker and the text label.  `circleR` and `lineR`
are imageproc's circle/line rasterizers (arbitrary point producers),
`layout` is the loaded font's glyph layout, and `fmt` is the label
formatter; all are external collaborators of the core.  The `i32`
wrap-around of the fixed label offsets `+6`/`-12` at the extreme ends of the
`i32` range is elided (it only changes which out-of-range position gets
clipped). -/
noncomputable def create_image (circleR : ℤ × ℤ → ℤ → List (ℤ × ℤ))
    (lineR : ℤ × ℤ → ℤ × ℤ → List (ℤ × ℤ)) (layout : String → List Glyph)
    (fmt : ℝ × ℝ × ℝ → String) (n_sides : ℕ) (diameter offset_deg : ℝ) :
    Except String Image :=
  (List.range n_sides).foldlM
      (edgeStep lineR (screen_points n_sides diameter offset_deg) n_sides)
      (circle_image circleR diameter) >>=
    fun img2 =>
      (screen_points n_sides diameter offset_deg).enum.foldlM
        (labelStep layout fmt (generate_polygon_points n_sides diameter offset_deg)) img2

/-! ### Invariants of the drawing pipeline -/

/-- The canvas invariant: fixed square dimensions and fully opaque pixels. -/
def goodIm (W : ℕ) (im : Image) : Prop :=
  im.width = W ∧ im.height = W ∧ ∀ x y, (im.pix x y).a = 255

lemma foldl_pres {α β : Type} (f : β → α → β) (P : β → Prop)
    (h : ∀ b a, P b → P (f b a)) :
    ∀ (l : List α) (b : β), P b → P (l.foldl f b) := by
  intro l
  induction l with
  | nil => intro b hb; exact hb
  | cons a l ih => intro b hb; exact ih (f b a) (h b a hb)

lemma foldlM_ok {α β : Type} (f : β → α → Except String β) (P : β → Prop)
    (l : List α) (h : ∀ b a, a ∈ l → P b → ∃ b2, f b a = Except.ok b2 ∧ P b2) :
    ∀ b : β, P b → ∃ b2, l.foldlM f b = Except.ok b2 ∧ P b2 := by
  induction l with
  | nil => intro b hb; exact ⟨b, rfl, hb⟩
  | cons a l ih =>
    intro b hb
    obtain ⟨b1, hb1, hP1⟩ := h b a (List.mem_cons_self a l) hb
    obtain ⟨b2, hb2, hP2⟩ :=
      ih (fun b' a' ha' => h b' a' (List.mem_cons_of_mem a ha')) b1 hP1
    refine ⟨b2, ?_, hP2⟩
    rw [List.foldlM_cons, hb1]
    exact hb2

lemma setPixel_width (img : Image) (x y : ℕ) (c : Pixel) :
    (setPixel img x y c).width = img.width := rfl

lemma setPixel_height (img : Image) (x y : ℕ) (c : Pixel) :
    (setPixel img x y c).height = img.height := rfl

lemma setPixel_good {W : ℕ} {img : Image} {c : Pixel} (hc : c.a = 255)
    (h : goodIm W img) (x y : ℕ) : goodIm W (setPixel img x y c) := by
  refine ⟨h.1, h.2.1, fun u v => ?_⟩
  unfold setPixel
  dsimp only
  by_cases huv : u = x ∧ v = y
  · rw [if_pos huv]; exact hc
  · rw [if_neg huv]; exact h.2.2 u v

lemma draw_shape_good {W : ℕ} {c : Pixel} (hc : c.a = 255) (pts : List (ℤ × ℤ))
    {img : Image} (h : goodIm W img) : goodIm W (draw_shape pts c img) := by
  unfold draw_shape
  refine foldl_pres _ (goodIm W) ?_ pts img h
  intro im p him
  by_cases hp : 0 ≤ p.1 ∧ p.1 < (im.width : ℤ) ∧ 0 ≤ p.2 ∧ p.2 < (im.height : ℤ)
  · rw [if_pos hp]; exact setPixel_good hc him _ _
  · rw [if_neg hp]; exact him

lemma composite_a (src : Pixel) (gv : ℚ) (dst : Pixel) :
    (composite src gv dst).a = 255 := rfl

lemma textPixelStep_good {W : ℕ} {img : Image} (color : Pixel) (px py : ℤ) (gv : ℚ)
    (h : goodIm W img) : goodIm W (textPixelStep color px py gv img) := by
  unfold textPixelStep
  by_cases hp : 0 ≤ px ∧ px < (img.width : ℤ) ∧ 0 ≤ py ∧ py < (img.height : ℤ)
  · rw [if_pos hp]; exact setPixel_good (composite_a _ _ _) h _ _
  · rw [if_neg hp]; exact h

lemma draw_text_good {W : ℕ} (layout : String → List Glyph) {img : Image}
    (text : String) (x y : ℤ) (color : Pixel) (h : goodIm W img) :
    goodIm W (draw_text layout img text x y color) := by
  unfold draw_text
  refine foldl_pres _ (goodIm W) ?_ (layout text) img h
  intro im g him
  cases hbb : g.bb with
  | none => exact him
  | some bb =>
    refine foldl_pres _ (goodIm W) ?_ (pixelGrid bb.w bb.h) im him
    intro im2 p him2
    exact textPixelStep_good _ _ _ _ him2

lemma drawMarker_good {W : ℕ} (c : Pixel) (hc : c.a = 255) (px py : ℤ) {img : Image}
    (h : goodIm W img) :
    ∃ img2, drawMarker px py c img = Except.ok img2 ∧ goodIm W img2 := by
  unfold drawMarker
  refine foldlM_ok _ (goodIm W) markerOffsets ?_ img h
  intro im q hq him
  unfold markerStep
  by_cases hdisc : q.2 * q.2 + q.1 * q.1 ≤ 3 * 3
  · rw [if_pos hdisc]
    by_cases hb : 0 ≤ px + q.2 ∧ px + q.2 < (im.width : ℤ) ∧ 0 ≤ py + q.1 ∧
        py + q.1 < (im.height : ℤ)
    · rw [if_pos hb]
      unfold putPixel
      rw [if_pos hb]
      exact ⟨_, rfl, setPixel_good hc him _ _⟩
    · rw [if_neg hb]; exact ⟨im, rfl, him⟩
  · rw [if_neg hdisc]; exact ⟨im, rfl, him⟩

lemma mem_enum_lt {α : Type} :
    ∀ (l : List α) (k : ℕ) (p : ℕ × α), p ∈ l.enumFrom k → k ≤ p.1 ∧ p.1 < k + l.length := by
  intro l
  induction l with
  | nil => intro k p hp; simp [List.enumFrom] at hp
  | cons a l ih =>
    intro k p hp
    rw [List.enumFrom] at hp
    rcases List.mem_cons.mp hp with h | h
    · subst h; constructor <;> simp
    · obtain ⟨h1, h2⟩ := ih (k + 1) p h
      constructor
      · omega
      · simp only [List.length_cons]; omega

lemma ok_bind {α β : Type} (a : α) (f : α → Except String β) :
    (Except.ok a >>= f) = f a := rfl

lemma safeIdx_ok {α : Type} (l : List α) (i : ℕ) (h : i < l.length) :
    safeIdx l i = Except.ok (l.get ⟨i, h⟩) := by
  unfold safeIdx
  rw [List.get?_eq_get h]

lemma edgeStep_ok {W n : ℕ} (lineR : ℤ × ℤ → ℤ × ℤ → List (ℤ × ℤ))
    (img_points : List (ℤ × ℤ)) (hlen : img_points.length = n) {im : Image} (i : ℕ)
    (hi : i ∈ List.range n) (him : goodIm W im) :
    ∃ im2, edgeStep lineR img_points n im i = Except.ok im2 ∧ goodIm W im2 := by
  have hi' : i < n := List.mem_range.mp hi
  have hn : ¬ n = 0 := by omega
  have hj : (i + 1) % n < n := Nat.mod_lt _ (by omega)
  have hA : i < img_points.length := by omega
  have hB : (i + 1) % n < img_points.length := by omega
  have h1 : safeMod (i + 1) n = Except.ok ((i + 1) % n) := by
    unfold safeMod; rw [if_neg hn]
  refine ⟨draw_shape
      (lineR (img_points.get ⟨i, hA⟩) (img_points.get ⟨(i + 1) % n, hB⟩)) edge_color im,
    ?_, draw_shape_good rfl _ him⟩
  unfold edgeStep
  rw [h1, ok_bind, safeIdx_ok img_points i hA, ok_bind, safeIdx_ok img_points _ hB, ok_bind]
  rfl

lemma labelStep_ok {W : ℕ} (layout : String → List Glyph) (fmt : ℝ × ℝ × ℝ → String)
    (points : List (ℝ × ℝ × ℝ)) (img_points : List (ℤ × ℤ))
    (hlen : img_points.length = points.length) {im : Image} (ip : ℕ × ℤ × ℤ)
    (hip : ip ∈ img_points.enum) (him : goodIm W im) :
    ∃ im2, labelStep layout fmt points im ip = Except.ok im2 ∧ goodIm W im2 := by
  have h1 : ip.1 < points.length := by
    have := mem_enum_lt img_points 0 ip hip
    omega
  obtain ⟨im2, hm, hg⟩ := drawMarker_good marker_color rfl ip.2.1 ip.2.2 him
  refine ⟨draw_text layout im2 (fmt (points.get ⟨ip.1, h1⟩)) (ip.2.1 + 6) (ip.2.2 - 12)
      label_color,
    ?_, draw_text_good layout _ _ _ _ hg⟩
  unfold labelStep
  rw [hm, ok_bind, safeIdx_ok points ip.1 h1, ok_bind]
  rfl

lemma screen_points_length (n : ℕ) (d off : ℝ) :
    (screen_points n d off).length = n := by
  unfold screen_points
  rw [List.length_map, generate_length]

lemma circle_image_good (circleR : ℤ × ℤ → ℤ → List (ℤ × ℤ)) (d : ℝ) :
    goodIm (needed_size d) (circle_image circleR d) :=
  draw_shape_good rfl _ ⟨rfl, rfl, fun _ _ => rfl⟩

/-- One canvas always comes out of `create_image`, with square dimensions
`needed_size diameter` and every pixel fully opaque. -/
lemma create_image_spec (circleR : ℤ × ℤ → ℤ → List (ℤ × ℤ))
    (lineR : ℤ × ℤ → ℤ × ℤ → List (ℤ × ℤ)) (layout : String → List Glyph)
    (fmt : ℝ × ℝ × ℝ → String) (n : ℕ) (d off : ℝ) :
    ∃ img, create_image circleR lineR layout fmt n d off = Except.ok img ∧
      goodIm (needed_size d) img := by
  have hlen1 : (screen_points n d off).length = n := screen_points_length n d off
  have hlen2 : (screen_points n d off).length =
      (generate_polygon_points n d off).length := by
    rw [hlen1, generate_length]
  obtain ⟨img2, h2, g2⟩ :=
    foldlM_ok (edgeStep lineR (screen_points n d off) n) (goodIm (needed_size d))
      (List.range n)
      (fun b a ha hb => edgeStep_ok lineR (screen_points n d off) hlen1 a ha hb)
      (circle_image circleR d) (circle_image_good circleR d)
  obtain ⟨img3, h3, g3⟩ :=
    foldlM_ok (labelStep layout fmt (generate_polygon_points n d off))
      (goodIm (needed_size d)) (screen_points n d off).enum
      (fun b a ha hb =>
        labelStep_ok layout fmt (generate_polygon_points n d off) (screen_points n d off)
          hlen2 a ha hb)
      img2 g2
  refine ⟨img3, ?_, g3⟩
  unfold create_image
  rw [h2, ok_bind]
  exact h3

/-! ### Canvas-size facts -/

lemma needed_size_eq (d : ℝ) (hd : 0 ≤ d) (hub : ⌊d⌋ + 200 < 2 ^ 32) :
    (needed_size d : ℤ) = max 1000 (⌊d⌋ + 200) := by
  have hknn : 0 ≤ ⌊d⌋ := Int.floor_nonneg.mpr hd
  have ht : ((Int.toNat ⌊d⌋ : ℕ) : ℤ) = ⌊d⌋ := Int.toNat_of_nonneg hknn
  unfold needed_size f64_as_u32 rtrunc
  rw [if_pos hd]
  have hmin : min (Int.toNat ⌊d⌋) (2 ^ 32 - 1) = Int.toNat ⌊d⌋ := by
    apply min_eq_left; omega
  rw [hmin]
  have hmod : (Int.toNat ⌊d⌋ + 200) % 2 ^ 32 = Int.toNat ⌊d⌋ + 200 :=
    Nat.mod_eq_of_lt (by omega)
  rw [hmod]
  push_cast
  omega

lemma needed_size_floor (d : ℝ) : 1000 ≤ needed_size d := le_max_right _ _

lemma f64_as_u32_mono (d1 d2 : ℝ) (h : d1 ≤ d2) : f64_as_u32 d1 ≤ f64_as_u32 d2 := by
  unfold f64_as_u32 rtrunc
  by_cases h1 : 0 ≤ d1
  · rw [if_pos h1, if_pos (le_trans h1 h)]
    exact min_le_min (Int.toNat_le_toNat (Int.floor_le_floor h)) (le_refl _)
  · rw [if_neg h1]
    have hc : ⌈d1⌉ ≤ 0 := Int.ceil_le.mpr (by push_cast; linarith [not_le.mp h1])
    have hz : Int.toNat ⌈d1⌉ = 0 := by omega
    rw [hz]
    simp

lemma f64_as_u32_small (d : ℝ) (hub : ⌊d⌋ + 200 < 2 ^ 32) :
    f64_as_u32 d + 200 < 2 ^ 32 := by
  unfold f64_as_u32 rtrunc
  by_cases h1 : 0 ≤ d
  · rw [if_pos h1]
    have : min (Int.toNat ⌊d⌋) (2 ^ 32 - 1) ≤ Int.toNat ⌊d⌋ := min_le_left _ _
    omega
  · rw [if_neg h1]
    have hc : ⌈d⌉ ≤ 0 := Int.ceil_le.mpr (by push_cast; linarith [not_le.mp h1])
    have hz : Int.toNat ⌈d⌉ = 0 := by omega
    rw [hz]
    norm_num

lemma needed_size_mono (d1 d2 : ℝ) (h12 : d1 ≤ d2) (hub : ⌊d2⌋ + 200 < 2 ^ 32) :
    needed_size d1 ≤ needed_size d2 := by
  have hm := f64_as_u32_mono d1 d2 h12
  have h2 := f64_as_u32_small d2 hub
  unfold needed_size
  rw [Nat.mod_eq_of_lt (by omega), Nat.mod_eq_of_lt (by omega)]
  omega

lemma needed_size_700 : needed_size 700 = 1000 := by
  have h7 : ⌊(700 : ℝ)⌋ = 700 := by norm_num
  unfold needed_size f64_as_u32 rtrunc
  rw [if_pos (by norm_num : (0 : ℝ) ≤ 700), h7]
  decide

lemma needed_size_5000 : needed_size 5000 = 5200 := by
  have h5 : ⌊(5000 : ℝ)⌋ = 5000 := by norm_num
  unfold needed_size f64_as_u32 rtrunc
  rw [if_pos (by norm_num : (0 : ℝ) ≤ 5000), h5]
  decide

lemma needed_size_fractional : needed_size (1500.5 : ℝ) = 1700 := by
  have hf : ⌊(1500.5 : ℝ)⌋ = 1500 := by
    apply Int.floor_eq_iff.mpr
    norm_num
  unfold needed_size f64_as_u32 rtrunc
  rw [if_pos (by norm_num : (0 : ℝ) ≤ 1500.5), hf]
  decide

lemma needed_size_huge : needed_size (4294967295 : ℝ) = 1000 := by
  have hf : ⌊(4294967295 : ℝ)⌋ = 4294967295 := by norm_num
  unfold needed_size f64_as_u32 rtrunc
  rw [if_pos (by norm_num : (0 : ℝ) ≤ 4294967295), hf]
  decide

/-! ### Claim theorems about the canvas -/

/-- C3 (counterexample): the canvas side is not `max(1000, diameter + 200)`
for every input.  At `diameter = 1500.5` the code truncates the diameter to
`1500` and produces a `1700`-pixel side, not `1700.5`; and at
`diameter = 4294967295` the `u32` addition `+ 200` wraps around, producing a
`1000`-pixel side instead of `4294967495`. -/
theorem create_image_side_formula_cex :
    ((needed_size (1500.5 : ℝ) : ℝ) ≠ max 1000 ((1500.5 : ℝ) + 200)) ∧
    ((needed_size (4294967295 : ℝ) : ℝ) ≠ max 1000 ((4294967295 : ℝ) + 200)) := by
  rw [needed_size_fractional, needed_size_huge]
  constructor
  · rw [max_eq_right (by norm_num : (1000 : ℝ) ≤ 1500.5 + 200)]
    norm_num
  · rw [max_eq_right (by norm_num : (1000 : ℝ) ≤ 4294967295 + 200)]
    norm_num

/-- C3 (amended): for every input with `0 ≤ diameter` and
`⌊diameter⌋ + 200 < 2^32` (no `u32` overflow), `create_image` returns a
square canvas of side `max 1000 (⌊diameter⌋ + 200)`; in particular the side
is `1000` for diameter `700` (since `900` is below the floor) and `5200` for
diameter `5000`. -/
theorem create_image_side_formula (circleR : ℤ × ℤ → ℤ → List (ℤ × ℤ))
    (lineR : ℤ × ℤ → ℤ × ℤ → List (ℤ × ℤ)) (layout : String → List Glyph)
    (fmt : ℝ × ℝ × ℝ → String) (n : ℕ) (off d : ℝ) (hd : 0 ≤ d)
    (hub : ⌊d⌋ + 200 < 2 ^ 32) :
    ∃ img, create_image circleR lineR layout fmt n d off = Except.ok img ∧
      img.width = img.height ∧ (img.width : ℤ) = max 1000 (⌊d⌋ + 200) ∧
      needed_size 700 = 1000 ∧ needed_size 5000 = 5200 := by
  obtain ⟨img, hok, hw, hh, _⟩ := create_image_spec circleR lineR layout fmt n d off
  refine ⟨img, hok, by rw [hw, hh], ?_, needed_size_700, needed_size_5000⟩
  rw [hw]
  exact needed_size_eq d hd hub

theorem create_image_side_formula_witness :
    (0 : ℝ) ≤ 0 ∧ ⌊(0 : ℝ)⌋ + 200 < 2 ^ 32 ∧
      ∃ img, create_image (fun _ _ => []) (fun _ _ => []) (fun _ => []) (fun _ => "")
          3 0 0 = Except.ok img ∧
        img.width = img.height ∧ (img.width : ℤ) = max 1000 (⌊(0 : ℝ)⌋ + 200) ∧
        needed_size 700 = 1000 ∧ needed_size 5000 = 5200 :=
  ⟨le_refl 0, by norm_num,
    create_image_side_formula (fun _ _ => []) (fun _ _ => []) (fun _ => []) (fun _ => "")
      3 0 0 (le_refl 0) (by norm_num)⟩

/-- C4 (counterexample): canvas width is not monotone in the diameter over
all inputs: `5000 ≤ 4294967295`, but the canvas for diameter `5000` is
`5200` pixels wide while the canvas for diameter `4294967295` is only
`1000` pixels wide (the `u32` addition `+ 200` wraps around). -/
theorem canvas_width_monotone_cex :
    (5000 : ℝ) ≤ 4294967295 ∧
      ∃ img1 img2,
        create_image (fun _ _ => []) (fun _ _ => []) (fun _ => []) (fun _ => "")
            3 5000 0 = Except.ok img1 ∧
        create_image (fun _ _ => []) (fun _ _ => []) (fun _ => []) (fun _ => "")
            3 4294967295 0 = Except.ok img2 ∧
        img2.width < img1.width := by
  refine ⟨by norm_num, ?_⟩
  obtain ⟨img1, h1, hw1, _, _⟩ :=
    create_image_spec (fun _ _ => []) (fun _ _ => []) (fun _ => []) (fun _ => "") 3 5000 0
  obtain ⟨img2, h2, hw2, _, _⟩ :=
    create_image_spec (fun _ _ => []) (fun _ _ => []) (fun _ => []) (fun _ => "")
      3 4294967295 0
  refine ⟨img1, img2, h1, h2, ?_⟩
  rw [hw1, hw2, needed_size_5000, needed_size_huge]
  norm_num

/-- C4 (amended): for every diameter the canvas width is never below the
floor of `1000` pixels (the wrap-regime diameters included), and the width
is monotone in the diameter as long as the larger diameter stays below the
`u32` overflow bound (`⌊d2⌋ + 200 < 2^32`). -/
theorem canvas_width_monotone (circleR : ℤ × ℤ → ℤ → List (ℤ × ℤ))
    (lineR : ℤ × ℤ → ℤ × ℤ → List (ℤ × ℤ)) (layout : String → List Glyph)
    (fmt : ℝ × ℝ × ℝ → String) (n : ℕ) (off : ℝ) :
    (∀ d : ℝ, ∃ img,
      create_image circleR lineR layout fmt n d off = Except.ok img ∧
        1000 ≤ img.width) ∧
    ∀ d1 d2 : ℝ, d1 ≤ d2 → ⌊d2⌋ + 200 < 2 ^ 32 →
      ∃ img1 img2,
        create_image circleR lineR layout fmt n d1 off = Except.ok img1 ∧
        create_image circleR lineR layout fmt n d2 off = Except.ok img2 ∧
        img1.width ≤ img2.width := by
  constructor
  · intro d
    obtain ⟨img, hok, hw, _, _⟩ := create_image_spec circleR lineR layout fmt n d off
    refine ⟨img, hok, ?_⟩
    rw [hw]
    exact needed_size_floor d
  · intro d1 d2 h12 hub
    obtain ⟨img1, h1, hw1, _, _⟩ := create_image_spec circleR lineR layout fmt n d1 off
    obtain ⟨img2, h2, hw2, _, _⟩ := create_image_spec circleR lineR layout fmt n d2 off
    refine ⟨img1, img2, h1, h2, ?_⟩
    rw [hw1, hw2]
    exact needed_size_mono d1 d2 h12 hub

theorem canvas_width_monotone_witness :
    (∃ img,
      create_image (fun _ _ => []) (fun _ _ => []) (fun _ => []) (fun _ => "")
          3 4294967295 0 = Except.ok img ∧
        1000 ≤ img.width) ∧
    ((0 : ℝ) ≤ 1 ∧ ⌊(1 : ℝ)⌋ + 200 < 2 ^ 32) ∧
    ∃ img1 img2,
      create_image (fun _ _ => []) (fun _ _ => []) (fun _ => []) (fun _ => "")
          3 0 0 = Except.ok img1 ∧
      create_image (fun _ _ => []) (fun _ _ => []) (fun _ => []) (fun _ => "")
          3 1 0 = Except.ok img2 ∧
      img1.width ≤ img2.width :=
  ⟨(canvas_width_monotone (fun _ _ => []) (fun _ _ => []) (fun _ => []) (fun _ => "")
      3 0).1 4294967295,
    ⟨by norm_num, by norm_num⟩,
    (canvas_width_monotone (fun _ _ => []) (fun _ _ => []) (fun _ => []) (fun _ => "")
      3 0).2 0 1 (by norm_num) (by norm_num)⟩

/-- C8: rendering is deterministic: `create_image` with the same circle and
line rasterizers, the same font layout and formatter, and equal
`(side_count, diameter, offset)` inputs produces the same canvas. -/
theorem create_image_deterministic (circleR : ℤ × ℤ → ℤ → List (ℤ × ℤ))
    (lineR : ℤ × ℤ → ℤ × ℤ → List (ℤ × ℤ)) (layout : String → List Glyph)
    (fmt : ℝ × ℝ × ℝ → String) (n1 n2 : ℕ) (d1 d2 o1 o2 : ℝ) (hn : n1 = n2)
    (hd : d1 = d2) (ho : o1 = o2) :
    create_image circleR lineR layout fmt n1 d1 o1 =
      create_image circleR lineR layout fmt n2 d2 o2 := by
  rw [hn, hd, ho]

theorem create_image_deterministic_witness :
    (3 : ℕ) = 3 ∧ (700 : ℝ) = 700 ∧ (0 : ℝ) = 0 ∧
      create_image (fun _ _ => []) (fun _ _ => []) (fun _ => []) (fun _ => "") 3 700 0 =
        create_image (fun _ _ => []) (fun _ _ => []) (fun _ => []) (fun _ => "") 3 700 0 :=
  ⟨rfl, rfl, rfl,
    create_image_deterministic (fun _ _ => []) (fun _ _ => []) (fun _ => []) (fun _ => "")
      3 3 700 700 0 0 rfl rfl rfl⟩

/-- C9: `create_image` is total over every side count, `0` included:
`generate_polygon_points` returns the empty vertex list for side count `0`,
the `(i + 1) % n_sides` of the edge loop is only evaluated for `i < n_sides`
(so no remainder-by-zero is taken), all vertex-list indexing is in range,
and a canvas is always returned (`Except.ok`, never a panic). -/
theorem create_image_total (circleR : ℤ × ℤ → ℤ → List (ℤ × ℤ))
    (lineR : ℤ × ℤ → ℤ × ℤ → List (ℤ × ℤ)) (layout : String → List Glyph)
    (fmt : ℝ × ℝ × ℝ → String) (n : ℕ) (d off : ℝ) :
    generate_polygon_points 0 d off = [] ∧
      ∃ img, create_image circleR lineR layout fmt n d off = Except.ok img := by
  refine ⟨rfl, ?_⟩
  obtain ⟨img, hok, _⟩ := create_image_spec circleR lineR layout fmt n d off
  exact ⟨img, hok⟩

/-- C10: every pixel of the returned canvas is fully opaque: the background
fill and all drawing colors carry alpha `255`, and the text compositor pins
the destination alpha to `255`, so no operation ever lowers a pixel's
alpha. -/
theorem create_image_opaque (circleR : ℤ × ℤ → ℤ → List (ℤ × ℤ))
    (lineR : ℤ × ℤ → ℤ × ℤ → List (ℤ × ℤ)) (layout : String → List Glyph)
    (fmt : ℝ × ℝ × ℝ → String) (n : ℕ) (d off : ℝ) :
    ∃ img, create_image circleR lineR layout fmt n d off = Except.ok img ∧
      ∀ x y, (img.pix x y).a = 255 := by
  obtain ⟨img, hok, _, _, ha⟩ := create_image_spec circleR lineR layout fmt n d off
  exact ⟨img, hok, ha⟩

/-! ### The marker write set -/

lemma setPixel_pix (img : Image) (x0 y0 : ℕ) (c : Pixel) (u v : ℕ) :
    (setPixel img x0 y0 c).pix u v = if u = x0 ∧ v = y0 then c else img.pix u v := rfl

/-- Marker offset `q = (dy, dx)` writes pixel `(x, y)`: inside the disc,
centered at `(px, py)`, and within the canvas bounds. -/
abbrev markerHit (w h : ℕ) (px py : ℤ) (q : ℤ × ℤ) (x y : ℕ) : Prop :=
  q.2 * q.2 + q.1 * q.1 ≤ 3 * 3 ∧ px + q.2 = (x : ℤ) ∧ py + q.1 = (y : ℤ) ∧ x < w ∧ y < h

lemma marker_fold_char (px py : ℤ) (c : Pixel) :
    ∀ (L : List (ℤ × ℤ)) (img : Image),
      ∃ img2, L.foldlM (markerStep px py c) img = Except.ok img2 ∧
        img2.width = img.width ∧ img2.height = img.height ∧
        ∀ x y : ℕ, img2.pix x y =
          if ∃ q ∈ L, markerHit img.width img.height px py q x y
          then c else img.pix x y := by
  intro L
  induction L with
  | nil =>
    intro img
    refine ⟨img, rfl, rfl, rfl, fun x y => ?_⟩
    rw [if_neg (by simp)]
  | cons q L ih =>
    intro img
    by_cases hdisc : q.2 * q.2 + q.1 * q.1 ≤ 3 * 3
    · by_cases hb : 0 ≤ px + q.2 ∧ px + q.2 < (img.width : ℤ) ∧ 0 ≤ py + q.1 ∧
          py + q.1 < (img.height : ℤ)
      · -- the offset writes: `put_pixel` succeeds behind its guard
        obtain ⟨hb1, hb2, hb3, hb4⟩ := hb
        have hstep : markerStep px py c img q =
            Except.ok (setPixel img (px + q.2).toNat (py + q.1).toNat c) := by
          unfold markerStep putPixel
          rw [if_pos hdisc, if_pos ⟨hb1, hb2, hb3, hb4⟩,
            if_pos ⟨hb1, hb2, hb3, hb4⟩]
        obtain ⟨img2, hfold, hw, hh, hchar⟩ :=
          ih (setPixel img (px + q.2).toNat (py + q.1).toNat c)
        refine ⟨img2, ?_, by rw [hw]; rfl, by rw [hh]; rfl, fun x y => ?_⟩
        · rw [List.foldlM_cons, hstep, ok_bind]
          exact hfold
        · have hchar' := hchar x y
          simp only [setPixel_width, setPixel_height] at hchar'
          by_cases hL : ∃ q' ∈ L, markerHit img.width img.height px py q' x y
          · rw [if_pos hL] at hchar'
            obtain ⟨q', hq', hc'⟩ := hL
            rw [hchar', if_pos ⟨q', List.mem_cons_of_mem q hq', hc'⟩]
          · rw [if_neg hL] at hchar'
            rw [setPixel_pix] at hchar'
            by_cases hq : markerHit img.width img.height px py q x y
            · obtain ⟨hq1, hq2, hq3, hq4, hq5⟩ := hq
              rw [if_pos (by omega : x = (px + q.2).toNat ∧ y = (py + q.1).toNat)] at hchar'
              rw [hchar',
                if_pos ⟨q, List.mem_cons_self q L, hq1, hq2, hq3, hq4, hq5⟩]
            · rw [if_neg ?_] at hchar'
              · rw [hchar', if_neg ?_]
                rintro ⟨q', hq', hc'⟩
                rcases List.mem_cons.mp hq' with rfl | hmem
                · exact hq hc'
                · exact hL ⟨q', hmem, hc'⟩
              · rintro ⟨hx, hy⟩
                refine hq ⟨hdisc, by omega, by omega, by omega, by omega⟩
      · -- inside the disc but out of bounds: the write is skipped
        have hstep : markerStep px py c img q = Except.ok img := by
          unfold markerStep
          rw [if_pos hdisc, if_neg hb]
        obtain ⟨img2, hfold, hw, hh, hchar⟩ := ih img
        refine ⟨img2, ?_, hw, hh, fun x y => ?_⟩
        · rw [List.foldlM_cons, hstep, ok_bind]
          exact hfold
        · rw [hchar x y]
          by_cases hL : ∃ q' ∈ L, markerHit img.width img.height px py q' x y
          · obtain ⟨q', hq', hc'⟩ := hL
            rw [if_pos ⟨q', hq', hc'⟩,
              if_pos ⟨q', List.mem_cons_of_mem q hq', hc'⟩]
          · rw [if_neg hL, if_neg ?_]
            rintro ⟨q', hq', hc'⟩
            rcases List.mem_cons.mp hq' with rfl | hmem
            · obtain ⟨hc1, hc2, hc3, hc4, hc5⟩ := hc'
              exact hb ⟨by omega, by omega, by omega, by omega⟩
            · exact hL ⟨q', hmem, hc'⟩
    · -- outside the disc: nothing happens
      have hstep : markerStep px py c img q = Except.ok img := by
        unfold markerStep
        rw [if_neg hdisc]
      obtain ⟨img2, hfold, hw, hh, hchar⟩ := ih img
      refine ⟨img2, ?_, hw, hh, fun x y => ?_⟩
      · rw [List.foldlM_cons, hstep, ok_bind]
        exact hfold
      · rw [hchar x y]
        by_cases hL : ∃ q' ∈ L, markerHit img.width img.height px py q' x y
        · obtain ⟨q', hq', hc'⟩ := hL
          rw [if_pos ⟨q', hq', hc'⟩,
            if_pos ⟨q', List.mem_cons_of_mem q hq', hc'⟩]
        · rw [if_neg hL, if_neg ?_]
          rintro ⟨q', hq', hc'⟩
          rcases List.mem_cons.mp hq' with rfl | hmem
          · exact hdisc hc'.1
          · exact hL ⟨q', hmem, hc'⟩

lemma markerHit_iff (w h : ℕ) (px py : ℤ) (x y : ℕ) :
    (∃ q ∈ markerOffsets, markerHit w h px py q x y) ↔
      x < w ∧ y < h ∧ ((x : ℤ) - px) ^ 2 + ((y : ℤ) - py) ^ 2 ≤ 3 ^ 2 := by
  constructor
  · rintro ⟨q, hq, hdisc, hx, hy, hw, hh⟩
    refine ⟨hw, hh, ?_⟩
    have h1 : (x : ℤ) - px = q.2 := by omega
    have h2 : (y : ℤ) - py = q.1 := by omega
    rw [h1, h2]
    nlinarith [hdisc]
  · rintro ⟨hw, hh, hdist⟩
    have hb1 : -3 ≤ (y : ℤ) - py ∧ (y : ℤ) - py ≤ 3 := by
      constructor <;> nlinarith [sq_nonneg ((x : ℤ) - px)]
    have hb2 : -3 ≤ (x : ℤ) - px ∧ (x : ℤ) - px ≤ 3 := by
      constructor <;> nlinarith [sq_nonneg ((y : ℤ) - py)]
    have hmem : ((y : ℤ) - py, (x : ℤ) - px) ∈ markerOffsets := by
      unfold markerOffsets
      have hr1 : ((y : ℤ) - py + 3).toNat ∈ List.range 7 := List.mem_range.mpr (by omega)
      have hr2 : ((x : ℤ) - px + 3).toNat ∈ List.range 7 := List.mem_range.mpr (by omega)
      refine List.mem_flatMap.mpr ⟨((y : ℤ) - py + 3).toNat, hr1, ?_⟩
      refine List.mem_map.mpr ⟨((x : ℤ) - px + 3).toNat, hr2, ?_⟩
      rw [Prod.mk.injEq]
      constructor <;> omega
    refine ⟨((y : ℤ) - py, (x : ℤ) - px), hmem, ?_, ?_, ?_, hw, hh⟩
    · show ((x : ℤ) - px) * ((x : ℤ) - px) + ((y : ℤ) - py) * ((y : ℤ) - py) ≤ 3 * 3
      nlinarith [hdist]
    · show px + ((x : ℤ) - px) = (x : ℤ)
      ring
    · show py + ((y : ℤ) - py) = (y : ℤ)
      ring

/-- C6: drawing the filled circular vertex marker of radius 3 at any center
(including centers at or beyond the canvas edge) never errors, and writes
exactly the marker pixels that are inside the canvas bounds: pixel `(x, y)`
becomes `marker_color` iff it is in bounds and within distance 3 of the
center; every other pixel, the out-of-bounds part of the marker included, is
untouched. -/
theorem drawMarker_clipped (img : Image) (px py : ℤ) :
    ∃ img2, drawMarker px py marker_color img = Except.ok img2 ∧
      img2.width = img.width ∧ img2.height = img.height ∧
      ∀ x y : ℕ, img2.pix x y =
        if x < img.width ∧ y < img.height ∧
            ((x : ℤ) - px) ^ 2 + ((y : ℤ) - py) ^ 2 ≤ 3 ^ 2
        then marker_color else img.pix x y := by
  obtain ⟨img2, hfold, hw, hh, hchar⟩ := marker_fold_char px py marker_color markerOffsets img
  refine ⟨img2, hfold, hw, hh, fun x y => ?_⟩
  rw [hchar x y]
  by_cases hc : x < img.width ∧ y < img.height ∧
      ((x : ℤ) - px) ^ 2 + ((y : ℤ) - py) ^ 2 ≤ 3 ^ 2
  · rw [if_pos ((markerHit_iff img.width img.height px py x y).mpr hc), if_pos hc]
  · rw [if_neg (fun hx => hc ((markerHit_iff img.width img.height px py x y).mp hx)),
      if_neg hc]

/-! ### The text blend -/

lemma f32_as_u8_le (q : ℚ) : f32_as_u8 q ≤ 255 := min_le_right _ _

lemma f32_as_u8_eq_floor (gv : ℚ) (hg0 : 0 ≤ gv) (hg1 : gv ≤ 1) :
    (f32_as_u8 (gv * 255) : ℤ) = ⌊gv * 255⌋ := by
  have hnn : (0 : ℚ) ≤ gv * 255 := by positivity
  have hfl0 : 0 ≤ ⌊gv * 255⌋ := Int.floor_nonneg.mpr hnn
  have hle : gv * 255 ≤ 255 := by nlinarith
  have hfl1 : ⌊gv * 255⌋ ≤ 255 := by
    have := Int.floor_le_floor hle
    simpa using this
  unfold f32_as_u8 qtrunc
  rw [if_pos hnn]
  omega

lemma blend_channel_eq (s d a : ℕ) (hs : s ≤ 255) (hd : d ≤ 255) (ha : a ≤ 255) :
    (((s * a + d * (255 - a)) % 2 ^ 16 / 255 % 2 ^ 8 : ℕ) : ℤ) =
      ⌊((s : ℚ) * ((a : ℚ) / 255) + (d : ℚ) * (1 - (a : ℚ) / 255))⌋ := by
  have hA : s * a + d * (255 - a) ≤ 255 * 255 := by
    have h1 : s * a ≤ 255 * a := Nat.mul_le_mul_right a hs
    have h2 : d * (255 - a) ≤ 255 * (255 - a) := Nat.mul_le_mul_right _ hd
    omega
  rw [Nat.mod_eq_of_lt (by omega)]
  have hq : (s * a + d * (255 - a)) / 255 ≤ 255 := by omega
  rw [Nat.mod_eq_of_lt (by omega)]
  have hcast : (s : ℚ) * ((a : ℚ) / 255) + (d : ℚ) * (1 - (a : ℚ) / 255) =
      (((s * a + d * (255 - a) : ℕ) : ℤ) : ℚ) / ((255 : ℕ) : ℚ) := by
    push_cast [ha]
    field_simp
  rw [hcast, Rat.floor_intCast_div_natCast]
  exact Int.natCast_div _ _


/-- C7: for every glyph pixel, the `draw_text` compositor quantizes the
coverage `gv ∈ [0, 1]` to `alpha = ⌊gv·255⌋`, blends each RGB channel of an
in-bounds destination pixel as `⌊src·α + dst·(1−α)⌋` for the effective
`α = alpha/255 ∈ [0, 1]` (the `u16` arithmetic never wraps), pins the
destination alpha to fully opaque `255`, and clips per pixel: a glyph pixel
that falls outside the canvas is skipped individually, leaving the image
unchanged there, while an in-bounds glyph pixel only replaces its own
destination pixel. -/
theorem draw_text_blend_spec (color dst : Pixel) (gv : ℚ) (img : Image) (px py : ℤ)
    (hcr : color.r ≤ 255) (hcg : color.g ≤ 255) (hcb : color.b ≤ 255)
    (hdr : dst.r ≤ 255) (hdg : dst.g ≤ 255) (hdb : dst.b ≤ 255)
    (hg0 : 0 ≤ gv) (hg1 : gv ≤ 1) :
    (f32_as_u8 (gv * 255) : ℤ) = ⌊gv * 255⌋ ∧
    (0 ≤ (f32_as_u8 (gv * 255) : ℚ) / 255 ∧ (f32_as_u8 (gv * 255) : ℚ) / 255 ≤ 1) ∧
    ((composite color gv dst).r : ℤ) =
      ⌊(color.r : ℚ) * ((f32_as_u8 (gv * 255) : ℚ) / 255) +
        (dst.r : ℚ) * (1 - (f32_as_u8 (gv * 255) : ℚ) / 255)⌋ ∧
    ((composite color gv dst).g : ℤ) =
      ⌊(color.g : ℚ) * ((f32_as_u8 (gv * 255) : ℚ) / 255) +
        (dst.g : ℚ) * (1 - (f32_as_u8 (gv * 255) : ℚ) / 255)⌋ ∧
    ((composite color gv dst).b : ℤ) =
      ⌊(color.b : ℚ) * ((f32_as_u8 (gv * 255) : ℚ) / 255) +
        (dst.b : ℚ) * (1 - (f32_as_u8 (gv * 255) : ℚ) / 255)⌋ ∧
    (composite color gv dst).a = 255 ∧
    (¬(0 ≤ px ∧ px < (img.width : ℤ) ∧ 0 ≤ py ∧ py < (img.height : ℤ)) →
      textPixelStep color px py gv img = img) ∧
    ((0 ≤ px ∧ px < (img.width : ℤ) ∧ 0 ≤ py ∧ py < (img.height : ℤ)) →
      (textPixelStep color px py gv img).pix px.toNat py.toNat =
          composite color gv (img.pix px.toNat py.toNat) ∧
        ∀ x y : ℕ, ¬(x = px.toNat ∧ y = py.toNat) →
          (textPixelStep color px py gv img).pix x y = img.pix x y) := by
  have ha : f32_as_u8 (gv * 255) ≤ 255 := f32_as_u8_le _
  refine ⟨f32_as_u8_eq_floor gv hg0 hg1, ⟨by positivity, ?_⟩,
    blend_channel_eq color.r dst.r _ hcr hdr ha,
    blend_channel_eq color.g dst.g _ hcg hdg ha,
    blend_channel_eq color.b dst.b _ hcb hdb ha,
    rfl, ?_, ?_⟩
  · rw [div_le_one (by norm_num)]
    exact_mod_cast ha
  · intro h
    unfold textPixelStep
    rw [if_neg h]
  · intro h
    unfold textPixelStep
    rw [if_pos h]
    constructor
    · rw [setPixel_pix, if_pos ⟨rfl, rfl⟩]
    · intro x y hxy
      rw [setPixel_pix, if_neg hxy]

theorem draw_text_blend_spec_witness :
    bg_color.r ≤ 255 ∧ bg_color.g ≤ 255 ∧ bg_color.b ≤ 255 ∧
    label_color.r ≤ 255 ∧ label_color.g ≤ 255 ∧ label_color.b ≤ 255 ∧
    (0 : ℚ) ≤ 1 / 2 ∧ (1 / 2 : ℚ) ≤ 1 ∧
    ((f32_as_u8 ((1 / 2 : ℚ) * 255) : ℤ) = ⌊(1 / 2 : ℚ) * 255⌋ ∧
      (0 ≤ (f32_as_u8 ((1 / 2 : ℚ) * 255) : ℚ) / 255 ∧
        (f32_as_u8 ((1 / 2 : ℚ) * 255) : ℚ) / 255 ≤ 1) ∧
      ((composite label_color (1 / 2) bg_color).r : ℤ) =
        ⌊(label_color.r : ℚ) * ((f32_as_u8 ((1 / 2 : ℚ) * 255) : ℚ) / 255) +
          (bg_color.r : ℚ) * (1 - (f32_as_u8 ((1 / 2 : ℚ) * 255) : ℚ) / 255)⌋ ∧
      ((composite label_color (1 / 2) bg_color).g : ℤ) =
        ⌊(label_color.g : ℚ) * ((f32_as_u8 ((1 / 2 : ℚ) * 255) : ℚ) / 255) +
          (bg_color.g : ℚ) * (1 - (f32_as_u8 ((1 / 2 : ℚ) * 255) : ℚ) / 255)⌋ ∧
      ((composite label_color (1 / 2) bg_color).b : ℤ) =
        ⌊(label_color.b : ℚ) * ((f32_as_u8 ((1 / 2 : ℚ) * 255) : ℚ) / 255) +
          (bg_color.b : ℚ) * (1 - (f32_as_u8 ((1 / 2 : ℚ) * 255) : ℚ) / 255)⌋ ∧
      (composite label_color (1 / 2) bg_color).a = 255 ∧
      (¬((0 : ℤ) ≤ 2 ∧ (2 : ℤ) < ((Image.mk 10 10 fun _ _ => bg_color).width : ℤ) ∧
          (0 : ℤ) ≤ 2 ∧ (2 : ℤ) < ((Image.mk 10 10 fun _ _ => bg_color).height : ℤ)) →
        textPixelStep label_color 2 2 (1 / 2) (Image.mk 10 10 fun _ _ => bg_color) =
          Image.mk 10 10 fun _ _ => bg_color) ∧
      (((0 : ℤ) ≤ 2 ∧ (2 : ℤ) < ((Image.mk 10 10 fun _ _ => bg_color).width : ℤ) ∧
          (0 : ℤ) ≤ 2 ∧ (2 : ℤ) < ((Image.mk 10 10 fun _ _ => bg_color).height : ℤ)) →
        (textPixelStep label_color 2 2 (1 / 2)
              (Image.mk 10 10 fun _ _ => bg_color)).pix (2 : ℤ).toNat (2 : ℤ).toNat =
            composite label_color (1 / 2)
              ((Image.mk 10 10 fun _ _ => bg_color).pix (2 : ℤ).toNat (2 : ℤ).toNat) ∧
          ∀ x y : ℕ, ¬(x = (2 : ℤ).toNat ∧ y = (2 : ℤ).toNat) →
            (textPixelStep label_color 2 2 (1 / 2)
                (Image.mk 10 10 fun _ _ => bg_color)).pix x y =
              (Image.mk 10 10 fun _ _ => bg_color).pix x y)) :=
  ⟨by decide, by decide, by decide, by decide, by decide, by decide,
    by norm_num, by norm_num,
    draw_text_blend_spec label_color bg_color (1 / 2) (Image.mk 10 10 fun _ _ => bg_color)
      2 2 (by decide) (by decide) (by decide) (by decide) (by decide) (by decide)
      (by norm_num) (by norm_num)⟩
